import Mathlib

/-!
Shallow embedding of `scripts/update_prices.py` from the
`btc-purchasing-power` repository.

Dates are modelled as natural numbers in `yyyymmdd` form (the usual total
order on `Nat` agrees with calendar order for such encodings).  Prices are
modelled as rationals.  A raw provider series is a date-indexed column of
optional values (`none` models a NaN cell); a quarterly series is a list of
`(date, price)` pairs.  Pandas `resample("QE").last().dropna()` is modelled
by `resampleQE`: the sorted, de-duplicated list of quarter-end bins of the
input dates, each bin keeping the last non-null observation, bins with no
non-null observation dropped.  The filesystem is modelled explicitly so that
`open(path, "w")` (which fails when the parent directory is missing) and
`Path.mkdir(parents=True, exist_ok=True)` keep their real semantics.
-/

namespace UpdatePrices

/-- A provider column indexed by date; `none` models a NaN cell. -/
abbrev RawSeries := List (ℕ × Option ℚ)

/-- A quarterly price series: the `price` column of the fetchers' output. -/
abbrev Series := List (ℕ × ℚ)

/-- Month of the quarter-end of the quarter containing month `m`
(pandas `QE` bins: Mar, Jun, Sep, Dec). -/
def quarterEndMonth (m : Nat) : Nat :=
  if m ≤ 3 then 3 else if m ≤ 6 then 6 else if m ≤ 9 then 9 else 12

/-- Last day of a quarter-end month. -/
def quarterLastDay (m : Nat) : Nat :=
  if m = 6 ∨ m = 9 then 30 else 31

/-- The quarter-end date of the quarter containing `dt` (pandas `QE` label). -/
def quarterEnd (dt : ℕ) : ℕ :=
  (dt / 10000) * 10000 + quarterEndMonth (dt / 100 % 100) * 100 +
    quarterLastDay (quarterEndMonth (dt / 100 % 100))

/-- Last non-null value of a column, in positional order
(pandas `Resampler.last` skips NaN inside each bin). -/
def lastSome (xs : RawSeries) : Option ℚ :=
  xs.foldl (fun acc p => match p.2 with | some v => some v | none => acc) none

/-- The rows of `xs` falling in the quarter-end bin `q`. -/
def quarterBucket (xs : RawSeries) (q : ℕ) : RawSeries :=
  xs.filter (fun p => quarterEnd p.1 == q)

/-- The sorted, de-duplicated quarter-end bins of the dates of `xs`
(a resampled frame is indexed by sorted distinct bin labels). -/
def sortedQuarters (xs : RawSeries) : List ℕ :=
  List.insertionSort (fun a b => a ≤ b) ((xs.map (fun p => quarterEnd p.1)).dedup)

/-- Model of `series.resample("QE").last().dropna()`: one row per quarter-end bin that
contains at least one non-null observation, carrying the bin's last
non-null value. -/
def resampleQE (xs : RawSeries) : Series :=
  (sortedQuarters xs).filterMap
    (fun q => (lastSome (quarterBucket xs q)).map (fun v => (q, v)))

/-- Re-inject a quarterly series as a raw (NaN-free) column, for feeding a
resampled series back into `resampleQE`. -/
def asRaw (s : Series) : RawSeries :=
  s.map (fun p => (p.1, some p.2))

/-- Table `FRED_SERIES` from the script (insertion order preserved). -/
def FRED_SERIES : List (String × String) :=
  [(r"housing_us_median", r"MSPUS"),
   (r"housing_northeast", r"MSPNE"),
   (r"housing_midwest", r"MSPMW"),
   (r"housing_south", r"MSPS"),
   (r"housing_west", r"MSPW")]

/-- Table `YFINANCE_TICKERS` from the script (insertion order preserved). -/
def YFINANCE_TICKERS : List (String × String) :=
  [(r"btc_usd", r"BTC-USD"),
   (r"gold_usd", r"GC=F"),
   (r"sp500", r"^GSPC")]

/-- Constant `DATA_DIR`, as a path relative to the repository root. -/
def DATA_DIR : List String := [r"data"]

/-- Constant `START_DATE = "2010-01-01"` as a `yyyymmdd` number. -/
def START_DATE : ℕ := 20100101

/-- Key of the anchor series in `YFINANCE_TICKERS`. -/
def btcKey : String := "btc_usd"

/-- Python dict subscript `tbl[k]` on a string-keyed table. -/
def dictGet (tbl : List (String × String)) (k : String) : String :=
  ((tbl.find? (fun e => e.1 == k)).map Prod.snd).getD ""

/-- Model of `fetch_yfinance_data`: the provider response `resp` is the `Close`
column returned by `yf.download` (yfinance reports a failed call as an
empty frame).  An empty response is returned as an empty frame, otherwise
the column is resampled to quarter-end-last and NaNs are dropped. -/
def fetch_yfinance_data (resp : RawSeries) : Series :=
  if resp = [] then [] else resampleQE resp

/-- A downloaded CSV document: a header row and data rows of string cells. -/
structure Csv where
  header : List String
  rows : List (List String)

def chZero : Char := '0'
def chDot : Char := '.'
def chMinus : Char := '-'
def chPlus : Char := '+'
def dashStr : String := "-"
def dateColUC : String := "DATE"
def obsDateColUC : String := "OBSERVATION_DATE"

/-- Value of a decimal digit character. -/
def charDigit (c : Char) : Option Nat :=
  if c.isDigit then some (c.toNat - 48) else none

/-- Digits-only string value; `some 0` on the empty list, `none` on any
non-digit character. -/
def digitsToNat (cs : List Char) : Option Nat :=
  cs.foldl (fun acc c => match acc, charDigit c with
    | some a, some d => some (a * 10 + d)
    | _, _ => none) (some 0)

/-- Unsigned decimal literal: digits, optionally one dot, at least one
digit somewhere (`"."` alone is not numeric). -/
def parseUnsigned (cs : List Char) : Option ℚ :=
  let ip := cs.takeWhile (fun c => c ≠ chDot)
  let rest := cs.dropWhile (fun c => c ≠ chDot)
  match rest with
  | [] => if ip = [] then none else (digitsToNat ip).map (fun n => (n : ℚ))
  | _ :: fp =>
    if fp.contains chDot then none
    else if ip = [] ∧ fp = [] then none
    else match digitsToNat ip, digitsToNat fp with
      | some i, some f => some ((i : ℚ) + (f : ℚ) / 10 ^ fp.length)
      | _, _ => none

/-- Model of `pd.to_numeric(x, errors="coerce")` on one cell: non-numeric tokens
(for example a lone `"."`) become missing. -/
def parseNumeric (s : String) : Option ℚ :=
  match s.toList with
  | [] => none
  | c :: rest =>
    if c = chMinus then (parseUnsigned rest).map (fun q => -q)
    else if c = chPlus then parseUnsigned rest
    else parseUnsigned (c :: rest)

/-- Split a character list on `-` separators. -/
def splitOnDash : List Char → List (List Char)
  | [] => [[]]
  | c :: rest =>
    if c = chMinus then [] :: splitOnDash rest
    else
      match splitOnDash rest with
      | [] => [[c]]
      | g :: gs => (c :: g) :: gs

/-- All-digit character group to `Nat`, requiring at least one digit. -/
def parseNatGroup (t : List Char) : Option Nat :=
  if t = [] then none else digitsToNat t

/-- Model of `pd.to_datetime` on a FRED date cell, format `YYYY-MM-DD`. -/
def parseDate (s : String) : Option ℕ :=
  match (splitOnDash s.toList).map parseNatGroup with
  | [some y, some m, some d] => some (y * 10000 + m * 100 + d)
  | _ => none

/-- Upper-case a string (`str.upper()`). -/
def upperStr (s : String) : String :=
  String.mk (s.toList.map Char.toUpper)

/-- Date-column detection: first column whose upper-cased name is `DATE` or
`OBSERVATION_DATE`, else the first column. -/
def dateColIdx (header : List String) : Nat :=
  match header.findIdx? (fun c => upperStr c == dateColUC || upperStr c == obsDateColUC) with
  | some i => i
  | none => 0

/-- Value-column detection: the column named after the series id when
present, else the second column. -/
def valueColIdx (sid : String) (header : List String) : Nat :=
  match header.findIdx? (fun c => c == sid) with
  | some i => i
  | none => 1

/-- Parse the CSV body: dates via `pd.to_datetime` (an unparseable date
string raises, a missing cell becomes NaT, carried as `none`), values via
`pd.to_numeric(errors="coerce")`. -/
def parseRows (di vi : Nat) : List (List String) → Except String (List (Option ℕ × Option ℚ))
  | [] => Except.ok []
  | r :: rs =>
    match r.get? di with
    | none => (parseRows di vi rs).map (fun t => (none, (r.get? vi).bind parseNumeric) :: t)
    | some s =>
      match parseDate s with
      | none => Except.error s
      | some d => (parseRows di vi rs).map (fun t => (some d, (r.get? vi).bind parseNumeric) :: t)

/-- The body of the `try` block of `fetch_fred_data` after `pd.read_csv`
succeeded: column detection (indexing a missing second column raises) and
parsing of the date and value columns. -/
def parseBody (sid : String) (csv : Csv) : Except String (List (Option ℕ × Option ℚ)) :=
  match csv.header with
  | [] => Except.error sid
  | _ :: tl =>
    if sid ∉ csv.header ∧ tl = [] then Except.error sid
    else parseRows (dateColIdx csv.header) (valueColIdx sid csv.header) csv.rows

/-- Model of `fetch_fred_data`: the network/CSV response is `Except.error` when
`pd.read_csv` itself raises.  Any exception inside the `try` block yields an
empty frame; otherwise rows are filtered to dates on/after `START_DATE`
(a NaT index entry fails the comparison and is dropped) and resampled to
quarter-end-last with NaNs dropped. -/
def fetch_fred_data (sid : String) (resp : Except String Csv) : Series :=
  match resp with
  | Except.error _ => []
  | Except.ok csv =>
    match parseBody sid csv with
    | Except.error _ => []
    | Except.ok rows =>
      resampleQE (rows.filterMap (fun p =>
        match p.1 with
        | some d => if START_DATE ≤ d then some (d, p.2) else none
        | none => none))

/-- A row of the frame built by `compute_btc_ratio` and consumed by
`save_to_json`; an `Option` field is `none` when the column is absent for
that frame (the `if "btc" in row` checks in `save_to_json`). -/
structure DFRow where
  date : ℕ
  btc : Option ℚ
  asset : Option ℚ
  asset_per_btc : Option ℚ
deriving DecidableEq, Repr

/-- First value at date `d` of a quarterly series (pandas label lookup). -/
def seriesLookup (s : Series) (d : ℕ) : Option ℚ :=
  (s.find? (fun p => p.1 == d)).map Prod.snd

/-- Index of `pd.concat([btc, asset], axis=1)`: the sorted union of the two
date indexes, without duplicates. -/
def unionDates (btc_df asset_df : Series) : List ℕ :=
  List.insertionSort (fun a b => a ≤ b)
    ((btc_df.map Prod.fst ++ asset_df.map Prod.fst).dedup)

/-- Model of `compute_btc_ratio`: outer-align the two series on date
(`pd.concat(axis=1)`), drop rows with a missing side (`dropna`), then add
the `asset_per_btc = asset / btc` column. -/
def compute_btc_ratio (btc_df asset_df : Series) : List DFRow :=
  (unionDates btc_df asset_df).filterMap (fun d =>
    match seriesLookup btc_df d, seriesLookup asset_df d with
    | some b, some a => some ⟨d, some b, some a, some (a / b)⟩
    | _, _ => none)

/-- Call-level view of `compute_btc_ratio`: the returned frame together
with the state of the two argument frames after the call (the function
builds a fresh `combined` frame and never assigns into its arguments). -/
def compute_btc_ratio_st (btc_df asset_df : Series) :
    List DFRow × Series × Series :=
  (compute_btc_ratio btc_df asset_df, btc_df, asset_df)

/-- Round half to even at integer precision (Python `round`). -/
def roundHalfEven (q : ℚ) : ℤ :=
  if q - ⌊q⌋ < 1 / 2 then ⌊q⌋
  else if 1 / 2 < q - ⌊q⌋ then ⌊q⌋ + 1
  else if ⌊q⌋ % 2 = 0 then ⌊q⌋ else ⌊q⌋ + 1

/-- Python `round(q, n)`. -/
def pyRound (n : Nat) (q : ℚ) : ℚ :=
  (roundHalfEven (q * 10 ^ n) : ℚ) / 10 ^ n

/-- Decimal digits of `n` left-padded with zeros to width `w`. -/
def natPad (w n : Nat) : String :=
  String.mk (List.replicate (w - (Nat.repr n).length) chZero) ++ Nat.repr n

/-- Model of `timestamp.strftime` with format string year-month-day. -/
def formatDate (dt : ℕ) : String :=
  natPad 4 (dt / 10000) ++ dashStr ++ natPad 2 (dt / 100 % 100) ++ dashStr ++ natPad 2 (dt % 100)

/-- A serialized record of the ratio document. -/
structure JsonRecord where
  date : String
  btc_price : Option ℚ
  asset_price : Option ℚ
  asset_per_btc : Option ℚ
deriving DecidableEq, Repr

/-- A serialized record of the BTC-in-USD document. -/
structure BtcUsdRecord where
  date : String
  btc_price_usd : ℚ
  btc_per_usd : ℚ
deriving DecidableEq, Repr

/-- A JSON document written by the script (`updated_at` carries the
`datetime.now().isoformat()` string). -/
inductive Doc where
  | ratioDoc (asset : String) (updated_at : String) (data : List JsonRecord) : Doc
  | btcDoc (asset : String) (updated_at : String) (data : List BtcUsdRecord) : Doc
deriving DecidableEq, Repr

/-- The record built for one row by `save_to_json`: formatted date, prices
rounded to 2 places, ratio rounded to 10 places, `None` for an absent
column. -/
def rowToRecord (r : DFRow) : JsonRecord :=
  { date := formatDate r.date
    btc_price := r.btc.map (pyRound 2)
    asset_price := r.asset.map (pyRound 2)
    asset_per_btc := r.asset_per_btc.map (pyRound 10) }

/-- The record built for one row by `save_btc_usd`: raw price and
`1.0 / price`, unrounded. -/
def btcUsdRecord (p : ℕ × ℚ) : BtcUsdRecord :=
  { date := formatDate p.1, btc_price_usd := p.2, btc_per_usd := 1 / p.2 }

/-- The filesystem: existing directories and a path-to-document map. -/
structure FS where
  dirs : List (List String)
  files : List (List String × Doc)
deriving DecidableEq, Repr

/-- Model of `Path.mkdir(parents=True, exist_ok=True)`: create the directory and all
its ancestors. -/
def FS.mkdirParents (fs : FS) (dir : List String) : FS :=
  { fs with dirs := (List.range dir.length).map (fun k => dir.take (k + 1)) ++ fs.dirs }

/-- Model of `open(path, "w")` followed by `json.dump`: fails when the parent
directory is missing, otherwise replaces whatever was stored at `path`. -/
def FS.write (fs : FS) (p : List String) (doc : Doc) : Option FS :=
  if p.dropLast = [] ∨ p.dropLast ∈ fs.dirs then
    some { fs with files := (p, doc) :: fs.files.filter (fun e => !(e.1 == p)) }
  else none

/-- Content stored at a path. -/
def FS.readFile (fs : FS) (p : List String) : Option Doc :=
  (fs.files.find? (fun e => e.1 == p)).map Prod.snd

/-- Model of `save_to_json`: build the wrapped ratio document, create the parent
directories, write the file. -/
def save_to_json (df : List DFRow) (filepath : List String) (asset_name : String)
    (now : String) (fs : FS) : Option FS :=
  (fs.mkdirParents filepath.dropLast).write filepath
    (Doc.ratioDoc asset_name now (df.map rowToRecord))

/-- Name of the anchor output document. -/
def usdInBtc : String := "USD in BTC"

/-- File name of the anchor output document. -/
def btcUsdJson : String := "btc_usd.json"

/-- Path of the anchor output document. -/
def btcUsdPath : List String := DATA_DIR ++ [btcUsdJson]

/-- Model of `save_btc_usd`: build the wrapped BTC-in-USD document and write it.
Unlike `save_to_json`, no `mkdir` call precedes the write. -/
def save_btc_usd (btc_df : Series) (now : String) (fs : FS) : Option FS :=
  fs.write btcUsdPath (Doc.btcDoc usdInBtc now (btc_df.map btcUsdRecord))

/-- File extension of the per-asset output documents. -/
def jsonExt : String := ".json"

/-- Path of a per-asset output document under the data directory. -/
def assetPath (name : String) : List String :=
  DATA_DIR ++ [name ++ jsonExt]

/-- The run's environment: provider responses keyed by ticker / series id,
and the wall-clock timestamp string. -/
structure Env where
  yf : String → RawSeries
  fred : String → Except String Csv
  now : String

/-- One iteration of the yfinance loop in `main`: skip the anchor entry,
fetch, and when the fetch is non-empty compute the ratio against the
threaded anchor frame and serialize.  The state threads the anchor frame
(as left by the `compute_btc_ratio` call) and the filesystem. -/
def stepYf (env : Env) (st : Series × FS) (e : String × String) : Option (Series × FS) :=
  if e.1 == btcKey then some st
  else
    let asset_df := fetch_yfinance_data (env.yf e.2)
    if asset_df = [] then some st
    else
      let r := compute_btc_ratio_st st.1 asset_df
      (save_to_json r.1 (assetPath e.1) e.1 env.now st.2).map (fun fs2 => (r.2.1, fs2))

/-- One iteration of the FRED loop in `main`. -/
def stepFred (env : Env) (st : Series × FS) (e : String × String) : Option (Series × FS) :=
  let asset_df := fetch_fred_data e.2 (env.fred e.2)
  if asset_df = [] then some st
  else
    let r := compute_btc_ratio_st st.1 asset_df
    (save_to_json r.1 (assetPath e.1) e.1 env.now st.2).map (fun fs2 => (r.2.1, fs2))

/-- Abort message printed when the anchor fetch is empty. -/
def abortMsg : String := "Error: Could not fetch BTC data. Aborting."

/-- Final progress message of a completed run. -/
def doneMsg : String := "Done!"

/-- Model of `main`: fetch the anchor BTC series; abort (printing an error, writing
nothing) when it is empty; otherwise write the BTC-in-USD document, then
process the remaining yfinance tickers and the FRED series in table order.
`none` models an uncaught exception (a failed file write). -/
def main (env : Env) (fs : FS) : Option FS × List String :=
  let btc_df := fetch_yfinance_data (env.yf (dictGet YFINANCE_TICKERS btcKey))
  if btc_df = [] then (some fs, [abortMsg])
  else
    match save_btc_usd btc_df env.now fs with
    | none => (none, [])
    | some fs1 =>
      match List.foldlM (stepYf env) (btc_df, fs1) YFINANCE_TICKERS with
      | none => (none, [])
      | some st2 =>
        match List.foldlM (stepFred env) st2 FRED_SERIES with
        | none => (none, [])
        | some st3 => (some st3.2, [doneMsg])

/-- The data-model invariant of a quarterly price series (spec section 3):
strictly increasing dates, no duplicates, every date a quarter-end label,
and at most one entry per calendar quarter. -/
def quarterlyInvariant (s : Series) : Prop :=
  (s.map Prod.fst).Sorted (fun x y => x < y) ∧
  (s.map Prod.fst).Nodup ∧
  (∀ p ∈ s, quarterEnd p.1 = p.1) ∧
  ∀ p ∈ s, ∀ p₂ ∈ s, quarterEnd p.1 = quarterEnd p₂.1 → p.1 = p₂.1

/-! ### Concrete fixtures for witnesses and counterexamples -/

def nowStr : String := "2026-10-12T00:00:00"
def btcTickerStr : String := "BTC-USD"
def emptyStr : String := ""
def dotStr : String := "."
def garbageStr : String := "garbage"
def mspusId : String := "MSPUS"

/-- An empty filesystem: no directories, no files. -/
def fs0 : FS := { dirs := [], files := [] }

/-- A filesystem where the output directory already exists. -/
def fsData : FS := { dirs := [DATA_DIR], files := [] }

/-- BTC series of the spec's gold scenario. -/
def c3btc : Series := [(20210331, 50000), (20210630, 35000)]

/-- Gold series of the spec's gold scenario. -/
def c3gold : Series := [(20210331, 1800), (20210630, 1770)]

/-- A provider response carrying a zero close price. -/
def c8input : RawSeries := [(20210215, some 0)]

/-- A one-row BTC series. -/
def c6series : Series := [(20210331, 50000)]

/-- An environment in which every provider call returns nothing. -/
def envAbort : Env :=
  { yf := fun _ => [], fred := fun _ => Except.error emptyStr, now := nowStr }

/-- An environment in which only the BTC ticker returns data. -/
def envW : Env :=
  { yf := fun t => if t == btcTickerStr then [(20210215, some 100)] else []
    fred := fun _ => Except.error emptyStr
    now := nowStr }

/-- The gold entry of `YFINANCE_TICKERS`. -/
def goldEntry : String × String := (r"gold_usd", r"GC=F")

/-- A concrete loop state: a fetched anchor series and a filesystem. -/
def stW : Series × FS := ([(20210331, (100 : ℚ))], fsData)

/-- A FRED CSV with a `"."` placeholder in the value column of the second
quarter. -/
def csvC7 : Csv :=
  { header := [r"observation_date", r"MSPUS"]
    rows := [[r"2021-01-01", r"350000"], [r"2021-04-01", r"."]] }

/-- The parse of `csvC7`: the placeholder cell is coerced to missing. -/
def rowsC7 : List (Option ℕ × Option ℚ) :=
  [(some 20210101, some ((350000 : ℕ) : ℚ)), (some 20210401, none)]

/-- A provider response whose only value is positive. -/
def c8posInput : RawSeries := [(20210215, some 5)]

/-- The first joined row of the gold scenario. -/
def c3row : DFRow :=
  { date := 20210331, btc := some 50000, asset := some 1800,
    asset_per_btc := some ((1800 : ℚ) / 50000) }

/-- The second joined row of the gold scenario. -/
def c3row2 : DFRow :=
  { date := 20210630, btc := some 35000, asset := some 1770,
    asset_per_btc := some ((1770 : ℚ) / 35000) }

/-- A FRED CSV whose date column does not parse. -/
def csvBadDate : Csv :=
  { header := [r"observation_date", r"MSPUS"], rows := [[r"garbage", r"1"]] }

/-! ### Structural lemmas about quarter-end resampling -/

theorem quarterEndMonth_mem (m : Nat) :
    quarterEndMonth m = 3 ∨ quarterEndMonth m = 6 ∨ quarterEndMonth m = 9 ∨
      quarterEndMonth m = 12 := by
  unfold quarterEndMonth
  split_ifs <;> simp

theorem quarterEnd_eval (y qm : Nat)
    (h : qm = 3 ∨ qm = 6 ∨ qm = 9 ∨ qm = 12) :
    quarterEnd (y * 10000 + qm * 100 + quarterLastDay qm) =
      y * 10000 + qm * 100 + quarterLastDay qm := by
  rcases h with rfl | rfl | rfl | rfl <;>
    (unfold quarterEnd quarterEndMonth quarterLastDay; split_ifs <;> simp_all <;> omega)

theorem quarterEnd_quarterEnd (d : ℕ) : quarterEnd (quarterEnd d) = quarterEnd d :=
  quarterEnd_eval (d / 10000) (quarterEndMonth (d / 100 % 100))
    (quarterEndMonth_mem (d / 100 % 100))

theorem filterMap_map_key {β : Type} (key : β → ℕ) (g : ℕ → Option β)
    (hk : ∀ q r, g q = some r → key r = q) :
    ∀ qs : List ℕ, (qs.filterMap g).map key = qs.filter (fun q => (g q).isSome)
  | [] => rfl
  | q :: qs => by
    cases hgq : g q with
    | none =>
      simp only [List.filterMap_cons, hgq, List.filter_cons, Option.isSome_none,
        Bool.false_eq_true, if_false]
      exact filterMap_map_key key g hk qs
    | some r =>
      simp only [List.filterMap_cons, hgq, List.filter_cons, Option.isSome_some, if_true,
        List.map_cons, hk q r hgq]
      rw [filterMap_map_key key g hk qs]

theorem sortedQuarters_sorted (xs : RawSeries) :
    (sortedQuarters xs).Sorted (fun a b => a ≤ b) :=
  List.sorted_insertionSort _ _

theorem sortedQuarters_nodup (xs : RawSeries) : (sortedQuarters xs).Nodup :=
  (List.perm_insertionSort _ _).nodup_iff.mpr (List.nodup_dedup _)

theorem sortedQuarters_sorted_lt (xs : RawSeries) :
    (sortedQuarters xs).Sorted (fun a b => a < b) :=
  List.Sorted.lt_of_le (sortedQuarters_sorted xs) (sortedQuarters_nodup xs)

theorem mem_sortedQuarters {xs : RawSeries} {q : ℕ} :
    q ∈ sortedQuarters xs ↔ ∃ p ∈ xs, quarterEnd p.1 = q := by
  unfold sortedQuarters
  rw [List.mem_insertionSort, List.mem_dedup, List.mem_map]

theorem mem_sortedQuarters_fix {xs : RawSeries} {q : ℕ}
    (h : q ∈ sortedQuarters xs) : quarterEnd q = q := by
  obtain ⟨p, -, rfl⟩ := mem_sortedQuarters.mp h
  exact quarterEnd_quarterEnd p.1

theorem resampleQE_keys (xs : RawSeries) :
    (resampleQE xs).map Prod.fst =
      (sortedQuarters xs).filter (fun q => (lastSome (quarterBucket xs q)).isSome) := by
  unfold resampleQE
  rw [filterMap_map_key Prod.fst _ (fun q r h => by
    obtain ⟨v, -, rfl⟩ := Option.map_eq_some'.mp h
    rfl)]
  refine List.filter_congr (fun q _ => ?_)
  cases lastSome (quarterBucket xs q) <;> rfl

theorem resampleQE_keys_sorted_lt (xs : RawSeries) :
    ((resampleQE xs).map Prod.fst).Sorted (fun a b => a < b) := by
  rw [resampleQE_keys]
  exact List.Pairwise.filter _ (sortedQuarters_sorted_lt xs)

theorem resampleQE_keys_nodup (xs : RawSeries) : ((resampleQE xs).map Prod.fst).Nodup := by
  rw [resampleQE_keys]
  exact List.Nodup.filter _ (sortedQuarters_nodup xs)

theorem mem_resampleQE {xs : RawSeries} {q : ℕ} {v : ℚ} :
    (q, v) ∈ resampleQE xs ↔ q ∈ sortedQuarters xs ∧ lastSome (quarterBucket xs q) = some v := by
  unfold resampleQE
  rw [List.mem_filterMap]
  constructor
  · rintro ⟨a, ha, hmap⟩
    obtain ⟨w, hw, heq⟩ := Option.map_eq_some'.mp hmap
    cases heq
    exact ⟨ha, hw⟩
  · rintro ⟨hq, hv⟩
    exact ⟨q, hq, by rw [hv]; rfl⟩

theorem mem_resampleQE_fix {xs : RawSeries} {p : ℕ × ℚ}
    (h : p ∈ resampleQE xs) : quarterEnd p.1 = p.1 := by
  obtain ⟨q, v⟩ := p
  exact mem_sortedQuarters_fix (mem_resampleQE.mp h).1

theorem lastSome_some {xs : RawSeries} {v : ℚ}
    (h : lastSome xs = some v) : ∃ d, (d, some v) ∈ xs := by
  unfold lastSome at h
  suffices H : ∀ (l : RawSeries) (acc : Option ℚ),
      l.foldl (fun acc p => match p.2 with | some w => some w | none => acc) acc = some v →
      (∃ d, (d, some v) ∈ l) ∨ acc = some v by
    rcases H xs none h with ⟨d, hd⟩ | hacc
    · exact ⟨d, hd⟩
    · exact absurd hacc (by simp)
  intro l
  induction l with
  | nil => intro acc h; exact Or.inr h
  | cons p t ih =>
    intro acc h
    rcases p with ⟨d, o⟩
    cases o with
    | none =>
      rcases ih acc h with ⟨d₂, hd⟩ | hacc
      · exact Or.inl ⟨d₂, List.mem_cons_of_mem _ hd⟩
      · exact Or.inr hacc
    | some w =>
      rcases ih (some w) h with ⟨d₂, hd⟩ | hacc
      · exact Or.inl ⟨d₂, List.mem_cons_of_mem _ hd⟩
      · obtain rfl : w = v := by injection hacc
        exact Or.inl ⟨d, List.mem_cons_self _ _⟩

theorem filter_key_single :
    ∀ {l : Series}, (l.map Prod.fst).Nodup → ∀ {q : ℕ} {v : ℚ}, (q, v) ∈ l →
      l.filter (fun p => p.1 == q) = [(q, v)]
  | [], _, _, _, hm => absurd hm (List.not_mem_nil _)
  | (d, w) :: tl, h, q, v, hm => by
    simp only [List.map_cons, List.nodup_cons] at h
    rcases List.mem_cons.mp hm with heq | htl
    · injection heq with h1 h2
      subst h1; subst h2
      rw [List.filter_cons_of_pos (by simp)]
      have htl0 : tl.filter (fun p => p.1 == q) = [] := by
        refine List.filter_eq_nil_iff.mpr (fun p hp hpq => ?_)
        exact h.1 ((beq_iff_eq.mp hpq) ▸ List.mem_map_of_mem Prod.fst hp)
      rw [htl0]
    · have hd : (d == q) = false := by
        refine beq_eq_false_iff_ne.mpr (fun hdq => ?_)
        exact h.1 (hdq ▸ List.mem_map_of_mem Prod.fst htl)
      rw [List.filter_cons_of_neg (by simp [hd])]
      exact filter_key_single h.2 htl

theorem filterMap_self_keys :
    ∀ (l : Series) (g : ℕ → Option (ℕ × ℚ)),
      (∀ q v, (q, v) ∈ l → g q = some (q, v)) →
      (l.map Prod.fst).filterMap g = l
  | [], _, _ => rfl
  | (q, v) :: tl, g, hg => by
    simp only [List.map_cons, List.filterMap_cons, hg q v (List.mem_cons_self _ _)]
    rw [filterMap_self_keys tl g (fun q₂ v₂ hm => hg q₂ v₂ (List.mem_cons_of_mem _ hm))]

theorem sortedQuarters_asRaw (xs : RawSeries) :
    sortedQuarters (asRaw (resampleQE xs)) = (resampleQE xs).map Prod.fst := by
  unfold sortedQuarters asRaw
  rw [List.map_map]
  have h1 : (resampleQE xs).map ((fun p => quarterEnd p.1) ∘ (fun p : ℕ × ℚ => (p.1, some p.2)))
      = (resampleQE xs).map Prod.fst :=
    List.map_congr_left (fun p hp => mem_resampleQE_fix hp)
  rw [h1, List.dedup_eq_self.mpr (resampleQE_keys_nodup xs)]
  exact List.Sorted.insertionSort_eq
    ((resampleQE_keys_sorted_lt xs).imp (fun h => le_of_lt h))

theorem quarterBucket_asRaw (xs : RawSeries) {q : ℕ} {v : ℚ}
    (hm : (q, v) ∈ resampleQE xs) :
    quarterBucket (asRaw (resampleQE xs)) q = asRaw [(q, v)] := by
  unfold quarterBucket asRaw
  rw [List.filter_map]
  have hcongr : (resampleQE xs).filter
      ((fun p : ℕ × Option ℚ => quarterEnd p.1 == q) ∘ (fun p : ℕ × ℚ => (p.1, some p.2)))
      = (resampleQE xs).filter (fun p => p.1 == q) :=
    List.filter_congr (fun p hp => by
      simp only [Function.comp]
      rw [mem_resampleQE_fix hp])
  rw [hcongr, filter_key_single (resampleQE_keys_nodup xs) hm]

theorem resampleQE_idem (xs : RawSeries) :
    resampleQE (asRaw (resampleQE xs)) = resampleQE xs := by
  show (sortedQuarters (asRaw (resampleQE xs))).filterMap _ = resampleQE xs
  rw [sortedQuarters_asRaw]
  refine filterMap_self_keys _ _ (fun q v hm => ?_)
  rw [quarterBucket_asRaw xs hm]
  rfl

/-! ### Structural lemmas about the date alignment in `compute_btc_ratio` -/

theorem unionDates_sorted (b a : Series) :
    (unionDates b a).Sorted (fun x y => x ≤ y) :=
  List.sorted_insertionSort _ _

theorem unionDates_nodup (b a : Series) : (unionDates b a).Nodup :=
  (List.perm_insertionSort _ _).nodup_iff.mpr (List.nodup_dedup _)

theorem unionDates_sorted_lt (b a : Series) :
    (unionDates b a).Sorted (fun x y => x < y) :=
  List.Sorted.lt_of_le (unionDates_sorted b a) (unionDates_nodup b a)

theorem mem_unionDates {b a : Series} {d : ℕ} :
    d ∈ unionDates b a ↔ d ∈ b.map Prod.fst ∨ d ∈ a.map Prod.fst := by
  unfold unionDates
  rw [List.mem_insertionSort, List.mem_dedup, List.mem_append]

theorem seriesLookup_isSome {s : Series} {d : ℕ} :
    (seriesLookup s d).isSome ↔ d ∈ s.map Prod.fst := by
  unfold seriesLookup
  rw [Option.isSome_map', List.find?_isSome, List.mem_map]
  constructor
  · rintro ⟨p, hp, hpd⟩
    exact ⟨p, hp, beq_iff_eq.mp hpd⟩
  · rintro ⟨p, hp, rfl⟩
    exact ⟨p, hp, beq_iff_eq.mpr rfl⟩

theorem compute_btc_ratio_keys (b a : Series) :
    (compute_btc_ratio b a).map DFRow.date =
      (unionDates b a).filter
        (fun d => (seriesLookup b d).isSome && (seriesLookup a d).isSome) := by
  unfold compute_btc_ratio
  rw [filterMap_map_key DFRow.date _ (fun q r h => by
    cases hb : seriesLookup b q <;> cases ha : seriesLookup a q <;>
      rw [hb, ha] at h <;> cases h <;> rfl)]
  refine List.filter_congr (fun d _ => ?_)
  cases hb : seriesLookup b d <;> cases ha : seriesLookup a d <;> simp [hb, ha]

theorem mem_compute_btc_ratio_keys {b a : Series} {d : ℕ} :
    d ∈ (compute_btc_ratio b a).map DFRow.date ↔
      d ∈ b.map Prod.fst ∧ d ∈ a.map Prod.fst := by
  rw [compute_btc_ratio_keys, List.mem_filter, mem_unionDates]
  rw [Bool.and_eq_true, seriesLookup_isSome, seriesLookup_isSome]
  constructor
  · rintro ⟨-, hb, ha⟩; exact ⟨hb, ha⟩
  · rintro ⟨hb, ha⟩; exact ⟨Or.inl hb, hb, ha⟩

theorem compute_btc_ratio_keys_nodup (b a : Series) :
    ((compute_btc_ratio b a).map DFRow.date).Nodup := by
  rw [compute_btc_ratio_keys]
  exact List.Nodup.filter _ (unionDates_nodup b a)

theorem compute_btc_ratio_keys_sorted_lt (b a : Series) :
    ((compute_btc_ratio b a).map DFRow.date).Sorted (fun x y => x < y) := by
  rw [compute_btc_ratio_keys]
  exact List.Pairwise.filter _ (unionDates_sorted_lt b a)

theorem compute_btc_ratio_length_le_left (b a : Series) :
    (compute_btc_ratio b a).length ≤ b.length := by
  have h1 : (compute_btc_ratio b a).length = ((compute_btc_ratio b a).map DFRow.date).length :=
    (List.length_map _ _).symm
  have hsub : (compute_btc_ratio b a).map DFRow.date ⊆ b.map Prod.fst :=
    fun d hd => (mem_compute_btc_ratio_keys.mp hd).1
  have h2 := List.Subperm.length_le
    (List.subperm_of_subset (compute_btc_ratio_keys_nodup b a) hsub)
  rw [h1]
  exact h2.trans (le_of_eq (List.length_map _ _))

theorem compute_btc_ratio_length_le_right (b a : Series) :
    (compute_btc_ratio b a).length ≤ a.length := by
  have h1 : (compute_btc_ratio b a).length = ((compute_btc_ratio b a).map DFRow.date).length :=
    (List.length_map _ _).symm
  have hsub : (compute_btc_ratio b a).map DFRow.date ⊆ a.map Prod.fst :=
    fun d hd => (mem_compute_btc_ratio_keys.mp hd).2
  have h2 := List.Subperm.length_le
    (List.subperm_of_subset (compute_btc_ratio_keys_nodup b a) hsub)
  rw [h1]
  exact h2.trans (le_of_eq (List.length_map _ _))

theorem quarterBucket_mem {xs : RawSeries} {q : ℕ} {p : ℕ × Option ℚ}
    (h : p ∈ quarterBucket xs q) : p ∈ xs ∧ quarterEnd p.1 = q := by
  have h2 := List.mem_filter.mp h
  exact ⟨h2.1, beq_iff_eq.mp h2.2⟩

theorem resampleQE_provenance {xs : RawSeries} {q : ℕ} {v : ℚ}
    (h : (q, v) ∈ resampleQE xs) : ∃ d, (d, some v) ∈ xs ∧ quarterEnd d = q := by
  obtain ⟨-, hlast⟩ := mem_resampleQE.mp h
  obtain ⟨d, hd⟩ := lastSome_some hlast
  obtain ⟨hin, hqe⟩ := quarterBucket_mem hd
  exact ⟨d, hin, hqe⟩

theorem resampleQE_invariant (xs : RawSeries) : quarterlyInvariant (resampleQE xs) := by
  refine ⟨resampleQE_keys_sorted_lt xs, resampleQE_keys_nodup xs,
    fun p hp => mem_resampleQE_fix hp, fun p hp p₂ hp₂ hq => ?_⟩
  rw [mem_resampleQE_fix hp, mem_resampleQE_fix hp₂] at hq
  exact hq

theorem resampleQE_pos {xs : RawSeries}
    (h : ∀ p ∈ xs, ∀ v : ℚ, p.2 = some v → 0 < v) :
    ∀ p ∈ resampleQE xs, 0 < p.2 := by
  rintro ⟨q, v⟩ hp
  obtain ⟨d, hd, -⟩ := resampleQE_provenance hp
  exact h (d, some v) hd v rfl

theorem fetch_fred_data_error (sid : String) (e : String) :
    fetch_fred_data sid (Except.error e) = [] := rfl

theorem fetch_fred_data_ok_error {sid : String} {csv : Csv} {e : String}
    (h : parseBody sid csv = Except.error e) :
    fetch_fred_data sid (Except.ok csv) = [] := by
  simp only [fetch_fred_data, h]

theorem fetch_fred_data_ok_ok {sid : String} {csv : Csv}
    {rows : List (Option ℕ × Option ℚ)} (h : parseBody sid csv = Except.ok rows) :
    fetch_fred_data sid (Except.ok csv) =
      resampleQE (rows.filterMap (fun p =>
        match p.1 with
        | some d => if START_DATE ≤ d then some (d, p.2) else none
        | none => none)) := by
  simp only [fetch_fred_data, h]

/-- C9: for every fetched daily or quarterly series, applying the
quarter-end-last resampling twice yields the same quarterly series as
applying it once — resampling is idempotent, both on a raw provider column
and on the output of either fetcher. -/
theorem c9_resampling_idempotent :
    ∀ (xs : RawSeries) (sid : String) (fresp : Except String Csv),
      resampleQE (asRaw (resampleQE xs)) = resampleQE xs ∧
      resampleQE (asRaw (fetch_yfinance_data xs)) = fetch_yfinance_data xs ∧
      resampleQE (asRaw (fetch_fred_data sid fresp)) = fetch_fred_data sid fresp := by
  intro xs sid fresp
  refine ⟨resampleQE_idem xs, ?_, ?_⟩
  · unfold fetch_yfinance_data
    split
    · rfl
    · exact resampleQE_idem xs
  · cases fresp with
    | error e => rw [fetch_fred_data_error]; rfl
    | ok csv =>
      cases hpb : parseBody sid csv with
      | error e => rw [fetch_fred_data_ok_error hpb]; rfl
      | ok rows => rw [fetch_fred_data_ok_ok hpb]; exact resampleQE_idem _

/-- C2: for every pair of quarterly price series, the output of
`compute_btc_ratio` contains exactly the dates present in both inputs
(inner join), its length is at most the minimum of the input lengths, and
its rows are in strictly ascending date order. -/
theorem c2_ratio_inner_join (b a : Series) :
    (∀ d, d ∈ (compute_btc_ratio b a).map DFRow.date ↔
        d ∈ b.map Prod.fst ∧ d ∈ a.map Prod.fst) ∧
    (compute_btc_ratio b a).length ≤ min b.length a.length ∧
    ((compute_btc_ratio b a).map DFRow.date).Sorted (fun x y => x < y) :=
  ⟨fun _ => mem_compute_btc_ratio_keys,
   le_min (compute_btc_ratio_length_le_left b a) (compute_btc_ratio_length_le_right b a),
   compute_btc_ratio_keys_sorted_lt b a⟩

theorem mem_compute_btc_ratio_shape {b a : Series} {r : DFRow}
    (h : r ∈ compute_btc_ratio b a) :
    ∃ bv av, seriesLookup b r.date = some bv ∧ seriesLookup a r.date = some av ∧
      r = { date := r.date, btc := some bv, asset := some av,
            asset_per_btc := some (av / bv) } := by
  unfold compute_btc_ratio at h
  obtain ⟨d, -, hmatch⟩ := List.mem_filterMap.mp h
  cases hb : seriesLookup b d with
  | none =>
    rw [hb] at hmatch
    cases ha : seriesLookup a d <;> rw [ha] at hmatch <;> cases hmatch
  | some bv =>
    cases ha : seriesLookup a d with
    | none =>
      rw [hb, ha] at hmatch
      cases hmatch
    | some av =>
      rw [hb, ha] at hmatch
      cases hmatch
      exact ⟨bv, av, hb, ha, rfl⟩

/-- C3: for every joined row the serialized record is the date formatted as
`YYYY-MM-DD`, the prices rounded to 2 decimal places and the
`asset = btc` quotient rounded to 10 decimal places, an absent source
column being emitted as `None`; on the spec's gold scenario the two
records carry `asset_per_btc` values `0.036` and `0.0505714286`. -/
theorem c3_serialized_records :
    (∀ b a : Series, ∀ r ∈ compute_btc_ratio b a,
      ∃ bv av, r.btc = some bv ∧ r.asset = some av ∧ r.asset_per_btc = some (av / bv) ∧
        rowToRecord r =
          { date := formatDate r.date, btc_price := some (pyRound 2 bv),
            asset_price := some (pyRound 2 av),
            asset_per_btc := some (pyRound 10 (av / bv)) }) ∧
    (∀ r : DFRow,
      (r.btc = none → (rowToRecord r).btc_price = none) ∧
      (r.asset = none → (rowToRecord r).asset_price = none) ∧
      (r.asset_per_btc = none → (rowToRecord r).asset_per_btc = none)) ∧
    (compute_btc_ratio c3btc c3gold).map rowToRecord =
      [{ date := "2021-03-31", btc_price := some 50000, asset_price := some 1800,
         asset_per_btc := some (0.036 : ℚ) },
       { date := "2021-06-30", btc_price := some 35000, asset_price := some 1770,
         asset_per_btc := some (0.0505714286 : ℚ) }] := by
  refine ⟨fun b a r hr => ?_, fun r => ?_, ?_⟩
  · obtain ⟨bv, av, hb, ha, hshape⟩ := mem_compute_btc_ratio_shape hr
    rw [hshape]
    exact ⟨bv, av, rfl, rfl, rfl, rfl⟩
  · refine ⟨fun h => ?_, fun h => ?_, fun h => ?_⟩ <;> simp [rowToRecord, h]
  · have h1 : compute_btc_ratio c3btc c3gold =
        [{ date := 20210331, btc := some 50000, asset := some 1800,
           asset_per_btc := some (1800 / 50000) },
         { date := 20210630, btc := some 35000, asset := some 1770,
           asset_per_btc := some (1770 / 35000) }] := by rfl
    rw [h1]
    simp only [List.map_cons, List.map_nil, rowToRecord, Option.map_some']
    refine congrArg₂ _ ?_ (congrArg₂ _ ?_ rfl)
    · simp only [JsonRecord.mk.injEq]
      refine ⟨by decide, ?_, ?_, ?_⟩ <;>
        (refine congrArg _ ?_; unfold pyRound roundHalfEven; norm_num)
    · simp only [JsonRecord.mk.injEq]
      refine ⟨by decide, ?_, ?_, ?_⟩ <;>
        (refine congrArg _ ?_; unfold pyRound roundHalfEven; norm_num)

/-! ### Filesystem and orchestrator lemmas -/

theorem FS.mem_mkdirParents (fs : FS) (dir : List String) (h : dir ≠ []) :
    dir ∈ (fs.mkdirParents dir).dirs := by
  unfold FS.mkdirParents
  refine List.mem_append.mpr (Or.inl ?_)
  refine List.mem_map.mpr ⟨dir.length - 1, List.mem_range.mpr ?_, ?_⟩
  · exact Nat.sub_lt (List.length_pos.mpr h) one_pos
  · rw [Nat.sub_add_cancel (List.length_pos.mpr h)]
    exact List.take_length dir

theorem FS.write_isSome {fs : FS} {p : List String} {doc : Doc}
    (h : p.dropLast = [] ∨ p.dropLast ∈ fs.dirs) : (fs.write p doc).isSome := by
  unfold FS.write
  rw [if_pos h]
  rfl

theorem FS.write_eq {fs : FS} {p : List String} {doc : Doc} {fs2 : FS}
    (h : fs.write p doc = some fs2) :
    fs2 = { fs with files := (p, doc) :: fs.files.filter (fun e => !(e.1 == p)) } := by
  unfold FS.write at h
  split at h
  · cases h; rfl
  · cases h

theorem FS.readFile_write_self {fs : FS} {p : List String} {doc : Doc} {fs2 : FS}
    (h : fs.write p doc = some fs2) : fs2.readFile p = some doc := by
  rw [FS.write_eq h]
  unfold FS.readFile
  rw [List.find?_cons_of_pos _ (by simp)]
  rfl

theorem FS.write_dirs {fs : FS} {p : List String} {doc : Doc} {fs2 : FS}
    (h : fs.write p doc = some fs2) : fs2.dirs = fs.dirs := by
  rw [FS.write_eq h]

theorem save_to_json_isSome (df : List DFRow) (fp : List String) (name now : String)
    (fs : FS) : (save_to_json df fp name now fs).isSome := by
  unfold save_to_json
  by_cases hfp : fp.dropLast = []
  · exact FS.write_isSome (Or.inl hfp)
  · exact FS.write_isSome (Or.inr (FS.mem_mkdirParents fs fp.dropLast hfp))

theorem save_to_json_spec (df : List DFRow) (fp : List String) (name now : String)
    (fs : FS) :
    ∃ fs2, save_to_json df fp name now fs = some fs2 ∧
      (fp.dropLast ≠ [] → fp.dropLast ∈ fs2.dirs) ∧
      fs2.readFile fp = some (Doc.ratioDoc name now (df.map rowToRecord)) := by
  obtain ⟨fs2, h2⟩ := Option.isSome_iff_exists.mp (save_to_json_isSome df fp name now fs)
  have h2w : (fs.mkdirParents fp.dropLast).write fp
      (Doc.ratioDoc name now (df.map rowToRecord)) = some fs2 := h2
  refine ⟨fs2, h2, fun hne => ?_, FS.readFile_write_self h2w⟩
  rw [FS.write_dirs h2w]
  exact FS.mem_mkdirParents fs fp.dropLast hne

theorem save_btc_usd_spec (b : Series) (now : String) (fs : FS)
    (h : DATA_DIR ∈ fs.dirs) :
    ∃ fs2, save_btc_usd b now fs = some fs2 ∧
      fs2.readFile btcUsdPath = some (Doc.btcDoc usdInBtc now (b.map btcUsdRecord)) := by
  have hdl : btcUsdPath.dropLast = DATA_DIR := rfl
  obtain ⟨fs2, h2⟩ := Option.isSome_iff_exists.mp
    (@FS.write_isSome fs btcUsdPath (Doc.btcDoc usdInBtc now (b.map btcUsdRecord))
      (Or.inr (hdl ▸ h)))
  exact ⟨fs2, h2, FS.readFile_write_self h2⟩

theorem stepYf_isSome (env : Env) (st : Series × FS) (e : String × String) :
    (stepYf env st e).isSome := by
  unfold stepYf
  dsimp only []
  split
  · rfl
  · split
    · rfl
    · rw [Option.isSome_map']
      exact save_to_json_isSome _ _ _ _ _

theorem stepFred_isSome (env : Env) (st : Series × FS) (e : String × String) :
    (stepFred env st e).isSome := by
  unfold stepFred
  dsimp only []
  split
  · rfl
  · rw [Option.isSome_map']
    exact save_to_json_isSome _ _ _ _ _

theorem stepYf_skip {env : Env} {st : Series × FS} {e : String × String}
    (h : fetch_yfinance_data (env.yf e.2) = []) : stepYf env st e = some st := by
  unfold stepYf
  dsimp only []
  rw [h]
  simp

theorem stepFred_skip {env : Env} {st : Series × FS} {e : String × String}
    (h : fetch_fred_data e.2 (env.fred e.2) = []) : stepFred env st e = some st := by
  unfold stepFred
  dsimp only []
  rw [h]
  simp

theorem stepYf_fst {env : Env} {st : Series × FS} {e : String × String}
    {st2 : Series × FS} (h : stepYf env st e = some st2) : st2.1 = st.1 := by
  unfold stepYf at h
  dsimp only [] at h
  split at h
  · cases h; rfl
  · split at h
    · cases h; rfl
    · obtain ⟨fs2, -, heq⟩ := Option.map_eq_some'.mp h
      rw [← heq]
      rfl

theorem stepFred_fst {env : Env} {st : Series × FS} {e : String × String}
    {st2 : Series × FS} (h : stepFred env st e = some st2) : st2.1 = st.1 := by
  unfold stepFred at h
  dsimp only [] at h
  split at h
  · cases h; rfl
  · obtain ⟨fs2, -, heq⟩ := Option.map_eq_some'.mp h
    rw [← heq]
    rfl

theorem foldlM_isSome {σ α : Type} (step : σ → α → Option σ)
    (h : ∀ st e, (step st e).isSome) :
    ∀ (l : List α) (st : σ), (List.foldlM step st l).isSome
  | [], _ => rfl
  | e :: l, st => by
    rw [List.foldlM_cons]
    obtain ⟨st2, h2⟩ := Option.isSome_iff_exists.mp (h st e)
    rw [h2]
    simp only [Option.bind_eq_bind, Option.some_bind]
    exact foldlM_isSome step h l st2

theorem foldlM_fst_eq {α : Type} (step : (Series × FS) → α → Option (Series × FS))
    (hstep : ∀ st e st2, step st e = some st2 → st2.1 = st.1) :
    ∀ (l : List α) (st st2 : Series × FS),
      List.foldlM step st l = some st2 → st2.1 = st.1
  | [], st, st2, h => by
    rw [List.foldlM_nil] at h
    cases h
    rfl
  | e :: l, st, st2, h => by
    rw [List.foldlM_cons] at h
    cases hse : step st e with
    | none =>
      rw [hse] at h
      simp only [Option.bind_eq_bind, Option.none_bind] at h
      cases h
    | some st1 =>
      rw [hse] at h
      simp only [Option.bind_eq_bind, Option.some_bind] at h
      rw [foldlM_fst_eq step hstep l st1 st2 h, hstep st e st1 hse]

/-- C1: if the anchor BTC fetch returns an empty series, the run prints the
abort message, leaves the filesystem untouched (zero output files: no ratio
document and no BTC-in-USD document), and terminates normally. -/
theorem c1_empty_anchor_aborts (env : Env) (fs : FS)
    (h : fetch_yfinance_data (env.yf (dictGet YFINANCE_TICKERS btcKey)) = []) :
    main env fs = (some fs, [abortMsg]) := by
  unfold main
  dsimp only []
  rw [h]
  simp

/-- Witness for C1: in an environment where every provider returns nothing,
the run aborts and writes no file. -/
theorem c1_empty_anchor_aborts_witness : main envAbort fs0 = (some fs0, [abortMsg]) :=
  c1_empty_anchor_aborts envAbort fs0 rfl

/-- C4: an empty (or failed, which yfinance reports as empty) provider
response yields an empty frame; the orchestrator loop leaves its state
untouched for such an asset (skip) in both loops; and with the output
directory present, the run always completes — an empty fetch is never
fatal. -/
theorem c4_empty_fetch_never_fatal :
    (∀ resp : RawSeries, resp = [] → fetch_yfinance_data resp = []) ∧
    (∀ (env : Env) (st : Series × FS) (e : String × String),
      fetch_yfinance_data (env.yf e.2) = [] → stepYf env st e = some st) ∧
    (∀ (env : Env) (st : Series × FS) (e : String × String),
      fetch_fred_data e.2 (env.fred e.2) = [] → stepFred env st e = some st) ∧
    (∀ (env : Env) (fs : FS), DATA_DIR ∈ fs.dirs → (main env fs).1.isSome) := by
  refine ⟨fun resp h => by subst h; rfl,
    fun env st e h => stepYf_skip h,
    fun env st e h => stepFred_skip h,
    fun env fs hdir => ?_⟩
  unfold main
  dsimp only []
  split
  · rfl
  · obtain ⟨fs1, h1, -⟩ := save_btc_usd_spec _ env.now fs hdir
    rw [h1]
    dsimp only []
    obtain ⟨st2, h2⟩ := Option.isSome_iff_exists.mp
      (foldlM_isSome (stepYf env) (stepYf_isSome env) YFINANCE_TICKERS
        (fetch_yfinance_data (env.yf (dictGet YFINANCE_TICKERS btcKey)), fs1))
    rw [h2]
    dsimp only []
    obtain ⟨st3, h3⟩ := Option.isSome_iff_exists.mp
      (foldlM_isSome (stepFred env) (stepFred_isSome env) FRED_SERIES st2)
    rw [h3]
    rfl

/-- Witness for C4: with only the BTC ticker returning data and the output
directory present, the gold fetch is empty, its loop step is a skip, and
the run completes. -/
theorem c4_empty_fetch_never_fatal_witness :
    fetch_yfinance_data (envW.yf goldEntry.2) = [] ∧
    stepYf envW stW goldEntry = some stW ∧
    (main envW fsData).1.isSome :=
  ⟨rfl, c4_empty_fetch_never_fatal.2.1 envW stW goldEntry rfl,
   c4_empty_fetch_never_fatal.2.2.2 envW fsData (List.mem_cons_self _ _)⟩

/-- C10: `compute_btc_ratio` returns its two argument frames unchanged, and
threading the anchor frame through either orchestrator loop leaves it
identical to the frame fetched at the start, whatever the environment. -/
theorem c10_anchor_frame_unchanged :
    (∀ b a : Series, compute_btc_ratio_st b a = (compute_btc_ratio b a, b, a)) ∧
    (∀ (env : Env) (l : List (String × String)) (st st2 : Series × FS),
      List.foldlM (stepYf env) st l = some st2 → st2.1 = st.1) ∧
    (∀ (env : Env) (l : List (String × String)) (st st2 : Series × FS),
      List.foldlM (stepFred env) st l = some st2 → st2.1 = st.1) :=
  ⟨fun _ _ => rfl,
   fun env l st st2 h =>
     foldlM_fst_eq (stepYf env) (fun _ _ _ hse => stepYf_fst hse) l st st2 h,
   fun env l st st2 h =>
     foldlM_fst_eq (stepFred env) (fun _ _ _ hse => stepFred_fst hse) l st st2 h⟩

/-- Witness for C10: running the yfinance loop on a concrete state in the
all-empty environment returns the state with the anchor unchanged. -/
theorem c10_anchor_frame_unchanged_witness :
    List.foldlM (stepYf envAbort) stW YFINANCE_TICKERS = some stW ∧ stW.1 = stW.1 :=
  ⟨rfl, c10_anchor_frame_unchanged.2.1 envAbort YFINANCE_TICKERS stW stW rfl⟩

/-- C5: any failure of the FRED fetch — the network/CSV read raising, or
any exception inside the `try` block (such as an unparseable date) — is
converted to an empty result, never propagated. -/
theorem c5_fred_exceptions_become_empty :
    (∀ sid e : String, fetch_fred_data sid (Except.error e) = []) ∧
    (∀ (sid : String) (csv : Csv) (e : String), parseBody sid csv = Except.error e →
      fetch_fred_data sid (Except.ok csv) = []) :=
  ⟨fun sid e => fetch_fred_data_error sid e,
   fun _ _ _ h => fetch_fred_data_ok_error h⟩

/-- Witness for C5: a CSV whose date cell does not parse yields an empty
series rather than an error. -/
theorem c5_fred_exceptions_become_empty_witness :
    fetch_fred_data mspusId (Except.ok csvBadDate) = [] :=
  c5_fred_exceptions_become_empty.2 mspusId csvBadDate garbageStr rfl

/-- Witness for C3 at the first joined row of the gold scenario. -/
theorem c3_serialized_records_witness :
    ∃ bv av, c3row.btc = some bv ∧ c3row.asset = some av ∧
      c3row.asset_per_btc = some (av / bv) ∧
      rowToRecord c3row =
        { date := formatDate c3row.date, btc_price := some (pyRound 2 bv),
          asset_price := some (pyRound 2 av),
          asset_per_btc := some (pyRound 10 (av / bv)) } :=
  c3_serialized_records.1 c3btc c3gold c3row (by
    have heq : compute_btc_ratio c3btc c3gold = [c3row, c3row2] := rfl
    rw [heq]
    exact List.mem_cons_self _ _)

/-- C6 counterexample: on a filesystem without the output directory, the
BTC-in-USD write fails instead of creating the parent directory — so not
every serializer write creates the parent directories of its target. -/
theorem c6_counterexample_btc_write_no_mkdir :
    save_btc_usd c6series nowStr fs0 = none := rfl

/-- C6 amended: every `save_to_json` write creates the parent directories
of the target path and fully replaces any existing file there; the
`save_btc_usd` write does not create directories — it succeeds, fully
replacing the file, only when the output directory already exists. -/
theorem c6_amended_mkdir_and_replace :
    (∀ (df : List DFRow) (fp : List String) (name now : String) (fs : FS),
      ∃ fs2, save_to_json df fp name now fs = some fs2 ∧
        (fp.dropLast ≠ [] → fp.dropLast ∈ fs2.dirs) ∧
        fs2.readFile fp = some (Doc.ratioDoc name now (df.map rowToRecord))) ∧
    (∀ (b : Series) (now : String) (fs : FS), DATA_DIR ∈ fs.dirs →
      ∃ fs2, save_btc_usd b now fs = some fs2 ∧
        fs2.readFile btcUsdPath = some (Doc.btcDoc usdInBtc now (b.map btcUsdRecord))) :=
  ⟨save_to_json_spec, save_btc_usd_spec⟩

/-- Witness for C6 on a filesystem where the output directory exists. -/
theorem c6_amended_mkdir_and_replace_witness :
    ∃ fs2, save_btc_usd c6series nowStr fsData = some fs2 ∧
      fs2.readFile btcUsdPath =
        some (Doc.btcDoc usdInBtc nowStr (c6series.map btcUsdRecord)) :=
  c6_amended_mkdir_and_replace.2 c6series nowStr fsData (List.mem_cons_self _ _)

/-- C7: a non-numeric placeholder token such as a lone `"."` in the value
column is coerced to missing, and a quarter all of whose in-range rows are
missing is absent from the resulting quarterly series — it is not turned
into a zero value. -/
theorem c7_placeholder_dropped :
    parseNumeric dotStr = none ∧
    ∀ (sid : String) (csv : Csv) (rows : List (Option ℕ × Option ℚ)),
      parseBody sid csv = Except.ok rows →
      ∀ q, (∀ p ∈ rows, ∀ d : ℕ, p.1 = some d → START_DATE ≤ d → quarterEnd d = q →
              p.2 = none) →
        q ∉ (fetch_fred_data sid (Except.ok csv)).map Prod.fst := by
  refine ⟨rfl, fun sid csv rows hpb q hnone hq => ?_⟩
  rw [fetch_fred_data_ok_ok hpb] at hq
  obtain ⟨⟨q2, v⟩, hmem, hfst⟩ := List.mem_map.mp hq
  cases hfst
  obtain ⟨d, hd, hqe⟩ := resampleQE_provenance hmem
  obtain ⟨p, hp, hf⟩ := List.mem_filterMap.mp hd
  rcases p with ⟨op, ov⟩
  cases op with
  | none => cases hf
  | some d0 =>
    dsimp only [] at hf
    by_cases hstart : START_DATE ≤ d0
    · rw [if_pos hstart] at hf
      obtain ⟨h1, h2⟩ := Prod.mk.injEq .. |>.mp (Option.some.inj hf)
      subst h1
      rw [h2] at hp
      exact Option.some_ne_none v (hnone (some d0, some v) hp d0 rfl hstart hqe)
    · rw [if_neg hstart] at hf
      cases hf

/-- Witness for C7: in the CSV `csvC7`, whose second-quarter value cell is
`"."`, that quarter is absent from the fetched series. -/
theorem c7_placeholder_dropped_witness :
    parseNumeric dotStr = none ∧
    20210630 ∉ (fetch_fred_data mspusId (Except.ok csvC7)).map Prod.fst := by
  refine ⟨c7_placeholder_dropped.1,
    c7_placeholder_dropped.2 mspusId csvC7 rowsC7 rfl 20210630 ?_⟩
  intro p hp d hd hstart hqe
  rcases List.mem_cons.mp hp with h1 | hp2
  · subst h1
    cases hd
    exact absurd hqe (by decide)
  · rcases List.mem_cons.mp hp2 with h2 | hp3
    · subst h2
      rfl
    · cases hp3

theorem quarterlyInvariant_nil : quarterlyInvariant [] := by
  refine ⟨List.sorted_nil, List.nodup_nil, fun p hp => absurd hp (List.not_mem_nil p),
    fun p hp => absurd hp (List.not_mem_nil p)⟩

/-- C8 counterexample: the fetchers do not enforce positive prices — a
provider response carrying a zero close survives resampling, so a produced
quarterly series can contain a non-positive value. -/
theorem c8_counterexample_zero_price :
    ¬ ∀ p ∈ fetch_yfinance_data c8input, (0 : ℚ) < p.2 := by
  intro h
  have h0 : fetch_yfinance_data c8input = [(20210331, (0 : ℚ))] := rfl
  have hlt := h (20210331, (0 : ℚ)) (by rw [h0]; exact List.mem_cons_self _ _)
  exact lt_irrefl 0 hlt

/-- C8 amended: every series produced by `resampleQE` or either fetcher is
strictly increasing in date with no duplicates, every date is a
quarter-end label with at most one entry per calendar quarter, and every
value is carried over from some input observation (missing values are
dropped, never interpolated); values are positive whenever all provider
observations are positive (but provider anomalies pass through). -/
theorem c8_amended_series_invariants :
    (∀ xs : RawSeries, quarterlyInvariant (resampleQE xs) ∧
      ∀ q v, (q, v) ∈ resampleQE xs → ∃ d, (d, some v) ∈ xs ∧ quarterEnd d = q) ∧
    (∀ resp : RawSeries, quarterlyInvariant (fetch_yfinance_data resp)) ∧
    (∀ (sid : String) (fresp : Except String Csv),
      quarterlyInvariant (fetch_fred_data sid fresp)) ∧
    (∀ resp : RawSeries, (∀ p ∈ resp, ∀ v : ℚ, p.2 = some v → 0 < v) →
      ∀ p ∈ fetch_yfinance_data resp, 0 < p.2) ∧
    (∀ (sid : String) (csv : Csv) (rows : List (Option ℕ × Option ℚ)),
      parseBody sid csv = Except.ok rows →
      (∀ p ∈ rows, ∀ v : ℚ, p.2 = some v → 0 < v) →
      ∀ p ∈ fetch_fred_data sid (Except.ok csv), 0 < p.2) := by
  refine ⟨fun xs => ⟨resampleQE_invariant xs, fun q v hm => resampleQE_provenance hm⟩,
    fun resp => ?_, fun sid fresp => ?_, fun resp hpos => ?_,
    fun sid csv rows hpb hpos => ?_⟩
  · unfold fetch_yfinance_data
    split
    · exact quarterlyInvariant_nil
    · exact resampleQE_invariant resp
  · cases fresp with
    | error e => rw [fetch_fred_data_error]; exact quarterlyInvariant_nil
    | ok csv =>
      cases hpb : parseBody sid csv with
      | error e => rw [fetch_fred_data_ok_error hpb]; exact quarterlyInvariant_nil
      | ok rows => rw [fetch_fred_data_ok_ok hpb]; exact resampleQE_invariant _
  · unfold fetch_yfinance_data
    split
    · intro p hp; exact absurd hp (List.not_mem_nil p)
    · exact resampleQE_pos hpos
  · rw [fetch_fred_data_ok_ok hpb]
    refine resampleQE_pos (fun p2 hp2 v hv => ?_)
    obtain ⟨p, hp, hf⟩ := List.mem_filterMap.mp hp2
    rcases p with ⟨op, ov⟩
    cases op with
    | none => cases hf
    | some d0 =>
      dsimp only [] at hf
      by_cases hstart : START_DATE ≤ d0
      · rw [if_pos hstart] at hf
        obtain ⟨h1, h2⟩ := Prod.mk.injEq .. |>.mp (Option.some.inj hf)
        exact hpos (some d0, ov) hp v (h2.trans hv)
      · rw [if_neg hstart] at hf
        cases hf

/-- Witness for C8: a provider column whose only observation is positive
yields a series of positive values. -/
theorem c8_amended_series_invariants_witness :
    ∀ p ∈ fetch_yfinance_data c8posInput, (0 : ℚ) < p.2 :=
  c8_amended_series_invariants.2.2.2.1 c8posInput (by
    intro p hp v hv
    rcases List.mem_cons.mp hp with h1 | hp2
    · subst h1
      cases hv
      norm_num
    · cases hp2)
